import Mathlib

/-!
Verification of the media ingest and retrieval core
(`app/utils/hashing.py`, `app/services/dedup.py`,
`app/services/faiss_store.py`, `app/services/embedder.py`).

The Python sources are shallowly embedded: byte strings become `List Nat`
(each byte reduced mod 256 where it is consumed), vector components become
`ℚ` (pixel/caption scores go through `+`, `*`, `/` and comparisons only),
Python `None`-returning failure paths become `Option`/`Except`, and the
`dict`s of the vector store become insertion-ordered association lists,
which is exactly the iteration order Python guarantees.
-/

namespace Hashing

/-! ### SHA-256, as computed by `hashlib.sha256(...).hexdigest()`

`compute_image_id` in `app/utils/hashing.py` delegates the digest to
`hashlib`; the algorithm is embedded here in full (FIPS 180-4) so that the
hex rendering and the digest are concrete computable functions.
All word arithmetic is `Nat` reduced mod `2^32`. -/

/-- Right rotation of a 32-bit word. -/
def rotr (n w : Nat) : Nat :=
  (w % 2 ^ 32) / 2 ^ n + (w % 2 ^ n) * 2 ^ (32 - n)

/-- Logical right shift of a 32-bit word. -/
def shr (n w : Nat) : Nat := (w % 2 ^ 32) / 2 ^ n

/-- Bitwise complement on 32 bits. -/
def bnot32 (w : Nat) : Nat := (w % 2 ^ 32) ^^^ (2 ^ 32 - 1)

def ch (e f g : Nat) : Nat := (e &&& f) ^^^ (bnot32 e &&& g)

def maj (a b c : Nat) : Nat := (a &&& b) ^^^ (a &&& c) ^^^ (b &&& c)

def bigSigma0 (a : Nat) : Nat := rotr 2 a ^^^ rotr 13 a ^^^ rotr 22 a

def bigSigma1 (e : Nat) : Nat := rotr 6 e ^^^ rotr 11 e ^^^ rotr 25 e

def smallSigma0 (w : Nat) : Nat := rotr 7 w ^^^ rotr 18 w ^^^ shr 3 w

def smallSigma1 (w : Nat) : Nat := rotr 17 w ^^^ rotr 19 w ^^^ shr 10 w

/-- The 64 SHA-256 round constants (FIPS 180-4 §4.2.2, here in decimal). -/
def roundK : List Nat :=
  [1116352408, 1899447441, 3049323471, 3921009573,
   961987163, 1508970993, 2453635748, 2870763221,
   3624381080, 310598401, 607225278, 1426881987,
   1925078388, 2162078206, 2614888103, 3248222580,
   3835390401, 4022224774, 264347078, 604807628,
   770255983, 1249150122, 1555081692, 1996064986,
   2554220882, 2821834349, 2952996808, 3210313671,
   3336571891, 3584528711, 113926993, 338241895,
   666307205, 773529912, 1294757372, 1396182291,
   1695183700, 1986661051, 2177026350, 2456956037,
   2730485921, 2820302411, 3259730800, 3345764771,
   3516065817, 3600352804, 4094571909, 275423344,
   430227734, 506948616, 659060556, 883997877,
   958139571, 1322822218, 1537002063, 1747873779,
   1955562222, 2024104815, 2227730452, 2361852424,
   2428436474, 2756734187, 3204031479, 3329325298]

/-- The eight 32-bit working variables of the compression function. -/
structure Hash8 where
  h0 : Nat
  h1 : Nat
  h2 : Nat
  h3 : Nat
  h4 : Nat
  h5 : Nat
  h6 : Nat
  h7 : Nat
deriving DecidableEq

/-- SHA-256 initial hash value (FIPS 180-4 §5.3.3, here in decimal). -/
def initH : Hash8 :=
  ⟨1779033703, 3144134277, 1013904242, 2773480762,
   1359893119, 2600822924, 528734635, 1541459225⟩

/-- Merkle–Damgård padding: append `0x80`, zeros to 56 mod 64, then the
bit length as 8 big-endian bytes. -/
def padBytes (msg : List Nat) : List Nat :=
  let L := msg.length
  msg ++ [0x80] ++ List.replicate ((119 - L % 64) % 64) 0
      ++ (List.range 8).map (fun i => L * 8 / 2 ^ (8 * (7 - i)) % 256)

/-- Split a byte list into 64-byte blocks. -/
def toBlocks (l : List Nat) : List (List Nat) :=
  (List.range ((l.length + 63) / 64)).map (fun i => (l.drop (64 * i)).take 64)

/-- The first 16 message-schedule words of a block (big-endian bytes). -/
def blockWords (block : List Nat) : List Nat :=
  (List.range 16).map (fun i =>
    (block.getD (4 * i) 0 % 256) * 2 ^ 24 +
    (block.getD (4 * i + 1) 0 % 256) * 2 ^ 16 +
    (block.getD (4 * i + 2) 0 % 256) * 2 ^ 8 +
    (block.getD (4 * i + 3) 0 % 256))

/-- One message-schedule extension step. -/
def nextW (ws : List Nat) : Nat :=
  let n := ws.length
  (ws.getD (n - 16) 0 + smallSigma0 (ws.getD (n - 15) 0) +
   ws.getD (n - 7) 0 + smallSigma1 (ws.getD (n - 2) 0)) % 2 ^ 32

/-- The full 64-word message schedule of one block. -/
def schedule (block : List Nat) : List Nat :=
  (List.range 48).foldl (fun ws _ => ws ++ [nextW ws]) (blockWords block)

/-- One SHA-256 compression round on the working variables. -/
def round (s : Hash8) (kw : Nat × Nat) : Hash8 :=
  let t1 := (s.h7 + bigSigma1 s.h4 + ch s.h4 s.h5 s.h6 + kw.1 + kw.2) % 2 ^ 32
  let t2 := (bigSigma0 s.h0 + maj s.h0 s.h1 s.h2) % 2 ^ 32
  ⟨(t1 + t2) % 2 ^ 32, s.h0, s.h1, s.h2, (s.h3 + t1) % 2 ^ 32, s.h4, s.h5, s.h6⟩

/-- Compress one 64-byte block into the running hash. -/
def compress (hs : Hash8) (block : List Nat) : Hash8 :=
  let s := (roundK.zip (schedule block)).foldl round hs
  ⟨(hs.h0 + s.h0) % 2 ^ 32, (hs.h1 + s.h1) % 2 ^ 32,
   (hs.h2 + s.h2) % 2 ^ 32, (hs.h3 + s.h3) % 2 ^ 32,
   (hs.h4 + s.h4) % 2 ^ 32, (hs.h5 + s.h5) % 2 ^ 32,
   (hs.h6 + s.h6) % 2 ^ 32, (hs.h7 + s.h7) % 2 ^ 32⟩

/-- The eight 32-bit digest words of a byte string. -/
def sha256words (msg : List Nat) : Hash8 :=
  (toBlocks (padBytes msg)).foldl compress initH

/-- The sixteen lowercase hex digits, in value order. -/
def hexCharList : List Char := "0123456789abcdef".data

/-- Lowercase hex digit of a nibble. -/
def hexChar (n : Nat) : Char := hexCharList.getD (n % 16) '0'

/-- Big-endian lowercase hex rendering of one 32-bit word (8 digits). -/
def wordToHex (w : Nat) : List Char :=
  (List.range 8).map (fun j => hexChar (w / 2 ^ (4 * (7 - j)) % 16))

/-- `hashlib.sha256(msg).hexdigest()`: 64 lowercase hex characters. -/
def sha256hex (msg : List Nat) : String :=
  let d := sha256words msg
  ⟨wordToHex d.h0 ++ wordToHex d.h1 ++ wordToHex d.h2 ++ wordToHex d.h3 ++
   wordToHex d.h4 ++ wordToHex d.h5 ++ wordToHex d.h6 ++ wordToHex d.h7⟩

/-- The failure raised by `compute_image_id` (Python `ValueError` on empty
input; the spec calls it `EmptyInputError`). -/
inductive HashError where
  | emptyInput
deriving DecidableEq

/-- `compute_image_id` from `app/utils/hashing.py`: rejects empty bytes,
otherwise returns the SHA-256 hex digest. -/
def compute_image_id (image_bytes : List Nat) : Except HashError String :=
  if image_bytes = [] then .error .emptyInput
  else .ok (sha256hex image_bytes)

/-! ### `is_valid_image_id`

The source validates with `len(image_id) == 64` and then `int(image_id, 16)`
inside a `try`.  CPython's `int(s, 16)` accepts more than bare hex digits:
leading/trailing whitespace, one optional sign, an optional `0x`/`0X`
prefix, and single underscores between digits (one also allowed right
after the prefix).  That acceptance grammar is embedded below for ASCII
strings (CPython additionally normalizes non-ASCII decimal digits and
Unicode spaces, which no 64-char hex-shaped id contains). -/

/-- Is the character an ASCII hexadecimal digit? -/
def isHexDigit (c : Char) : Bool :=
  ('0' ≤ c && c ≤ '9') || ('a' ≤ c && c ≤ 'f') || ('A' ≤ c && c ≤ 'F')

/-- ASCII whitespace stripped by Python `int()`. -/
def isPySpace (c : Char) : Bool :=
  c == ' ' || c == '\t' || c == '\n' || c == '\x0d' ||
  c == '\x0b' || c == '\x0c'

/-- State of the digit/underscore scanner of CPython's integer parser. -/
inductive HexSt where
  | begin (allowUnd : Bool)
  | afterUnd
  | afterDigit
  | failed
deriving DecidableEq

/-- One scanner step: digits always advance, an underscore is legal only
directly after a digit (or after the `0x` prefix). -/
def hexStep (st : HexSt) (c : Char) : HexSt :=
  match st with
  | .failed => .failed
  | .afterUnd => if isHexDigit c then .afterDigit else .failed
  | .afterDigit =>
      if isHexDigit c then .afterDigit
      else if c = '_' then .afterUnd else .failed
  | .begin allowUnd =>
      if isHexDigit c then .afterDigit
      else if c = '_' && allowUnd then .afterUnd else .failed

/-- Does `l` scan as `digit (underscore? digit)*`?  (`allowUnd` permits one
leading underscore, as after a `0x` prefix.) -/
def hexNum (allowUnd : Bool) (l : List Char) : Bool :=
  l.foldl hexStep (.begin allowUnd) == .afterDigit

/-- Numeral body after the optional sign: an optional `0x`/`0X` prefix
followed by the digit run. -/
def pyHexBody (l : List Char) : Bool :=
  match l with
  | c0 :: c1 :: rest =>
      if c0 = '0' && (c1 = 'x' || c1 = 'X') then hexNum true rest
      else hexNum false l
  | _ => hexNum false l

/-- Optional single sign before the body. -/
def pySigned (l : List Char) : Bool :=
  match l with
  | c :: rest => if c = '+' || c = '-' then pyHexBody rest else pyHexBody l
  | [] => pyHexBody []

/-- Does CPython's `int(s, 16)` succeed on the (ASCII) string `s`? -/
def pyIntHexOk (s : String) : Bool :=
  pySigned (((s.data.dropWhile isPySpace).reverse.dropWhile isPySpace).reverse)

/-- `is_valid_image_id` from `app/utils/hashing.py`: length must be 64 and
`int(image_id, 16)` must not raise. -/
def is_valid_image_id (image_id : String) : Bool :=
  if image_id.length = 64 then pyIntHexOk image_id else false

/-- The 64-character "all hex digits" shape the spec describes; stated
from the spec's words, to compare against `is_valid_image_id`. -/
def isHex64Spec (s : String) : Bool :=
  s.length = 64 && s.data.all isHexDigit

end Hashing

namespace Dedup

/-! ### `DeduplicationService` (`app/services/dedup.py`)

The service state is `self._known_ids`, a Python `set` of id strings,
embedded as a `Finset String`.  `check_and_register` hashes the bytes
(propagating the empty-input `ValueError`), returns `(id, True)` without
mutation on a known id, and otherwise inserts and returns `(id, False)`. -/

open Hashing

/-- `get_image_id`: delegate to `compute_image_id`. -/
def get_image_id (image_bytes : List Nat) : Except HashError String :=
  compute_image_id image_bytes

/-- `is_duplicate`: membership in the known-id set. -/
def is_duplicate (known_ids : Finset String) (image_id : String) : Bool :=
  image_id ∈ known_ids

/-- `check_and_register`: hash, then check-and-insert.  The result carries
the possibly-extended known-id set. -/
def check_and_register (known_ids : Finset String) (image_bytes : List Nat) :
    Except HashError (String × Bool × Finset String) :=
  match get_image_id image_bytes with
  | .error e => .error e
  | .ok image_id =>
      if is_duplicate known_ids image_id then .ok (image_id, true, known_ids)
      else .ok (image_id, false, insert image_id known_ids)

/-- `get_known_count`: `len(self._known_ids)`. -/
def get_known_count (known_ids : Finset String) : Nat := known_ids.card

end Dedup

namespace Faiss

/-! ### `FAISSStore` (`app/services/faiss_store.py`)

Vector components are embedded as `ℚ`; each of the two FAISS
`IndexFlatIP` indices is the ordered list of its appended vectors (so
`ntotal` is the list length and vector id `i` names the `i`-th entry),
and each of the four `dict` mappings is an insertion-ordered association
list, matching Python dict iteration order.  `faiss.IndexFlatIP.search`
is exact inner-product top-k, and `faiss.Index.add` raises when the row
width differs from the index dimension — that raise is what the `except`
blocks of `add_text_vector`/`add_image_vector` turn into a `None` return. -/

/-- `SearchResult` dataclass: a vector id with its similarity score. -/
structure SearchResult where
  vector_id : Nat
  score : ℚ
deriving DecidableEq

/-- In-memory state of `FAISSStore`. -/
structure FAISSStore where
  dimension : Nat
  is_loaded : Bool
  text_index : List (List ℚ)
  image_index : List (List ℚ)
  text_id_to_image_id : List (Nat × String)
  image_id_to_image_id : List (Nat × String)
  image_id_to_text_vector : List (String × Nat)
  image_id_to_image_vector : List (String × Nat)
deriving DecidableEq

/-- A persisted file as `load_indices` sees it: absent, unreadable
(read or JSON parse raises), or readable with parsed content. -/
inductive DiskFile (α : Type) where
  | missing
  | corrupt
  | ok (val : α)
deriving DecidableEq

/-- Parsed content of `vector_mapping.json` (keys already through
`int(k)`). -/
structure MappingFile where
  text_to_image : List (Nat × String)
  image_to_image : List (Nat × String)
deriving DecidableEq

/-- The three persisted artifacts `load_indices` reads. -/
structure DiskState where
  text_file : DiskFile (List (List ℚ))
  image_file : DiskFile (List (List ℚ))
  mapping_file : DiskFile MappingFile
deriving DecidableEq

/-- Python dict assignment `d[k] = v`: overwrite in place, else append. -/
def dictSet {α β : Type} [DecidableEq α] :
    List (α × β) → α → β → List (α × β)
  | [], k, v => [(k, v)]
  | (k0, v0) :: rest, k, v =>
      if k0 = k then (k, v) :: rest else (k0, v0) :: dictSet rest k v

/-- The dict comprehension `{v: k for k, v in m.items()}` building a
reverse mapping (later duplicates win). -/
def buildReverse (m : List (Nat × String)) : List (String × Nat) :=
  m.foldl (fun acc kv => dictSet acc kv.2 kv.1) []

/-- `create_indices`: fresh empty indices and cleared mappings.  The only
failure path in the source is a failed `import faiss`, outside this model,
so the flag is always `true` here. -/
def create_indices (s : FAISSStore) : Bool × FAISSStore :=
  (true, { s with
    text_index := [], image_index := [],
    text_id_to_image_id := [], image_id_to_image_id := [],
    image_id_to_text_vector := [], image_id_to_image_vector := [],
    is_loaded := true })

/-- `load_indices`: missing index files fall back to `create_indices`; any
raise while reading (unreadable index file, unparsable mapping JSON, bad
`int(k)` key) is caught and also falls back to `create_indices`; a missing
mapping file leaves the in-memory mappings untouched; otherwise the read
state is installed as-is and the reverse mappings are rebuilt. -/
def load_indices (disk : DiskState) (s : FAISSStore) : Bool × FAISSStore :=
  match disk.text_file, disk.image_file with
  | .missing, _ => create_indices s
  | _, .missing => create_indices s
  | .corrupt, _ => create_indices s
  | _, .corrupt => create_indices s
  | .ok ti, .ok ii =>
      match disk.mapping_file with
      | .corrupt => create_indices s
      | .missing =>
          (true, { s with text_index := ti, image_index := ii,
                          is_loaded := true })
      | .ok m =>
          (true, { s with text_index := ti, image_index := ii,
                          text_id_to_image_id := m.text_to_image,
                          image_id_to_image_id := m.image_to_image,
                          image_id_to_text_vector := buildReverse m.text_to_image,
                          image_id_to_image_vector := buildReverse m.image_to_image,
                          is_loaded := true })

/-- `_ensure_loaded`: load from disk unless already loaded. -/
def ensure_loaded (disk : DiskState) (s : FAISSStore) : Bool × FAISSStore :=
  if s.is_loaded then (true, s) else load_indices disk s

/-- `add_text_vector`: idempotent per image id; otherwise the next
sequential id is `ntotal`, the vector is appended and both mappings are
extended.  A dimension mismatch raises inside `faiss` before any mapping
is touched, and the `except` block returns `None`. -/
def add_text_vector (disk : DiskState) (s : FAISSStore)
    (vector : List ℚ) (image_id : String) : Option Nat × FAISSStore :=
  match ensure_loaded disk s with
  | (false, s1) => (none, s1)
  | (true, s1) =>
      match s1.image_id_to_text_vector.lookup image_id with
      | some vid => (some vid, s1)
      | none =>
          if vector.length = s1.dimension then
            let vid := s1.text_index.length
            (some vid, { s1 with
              text_index := s1.text_index ++ [vector],
              text_id_to_image_id := s1.text_id_to_image_id ++ [(vid, image_id)],
              image_id_to_text_vector :=
                s1.image_id_to_text_vector ++ [(image_id, vid)] })
          else (none, s1)

/-- `add_image_vector`: the image-index twin of `add_text_vector`. -/
def add_image_vector (disk : DiskState) (s : FAISSStore)
    (vector : List ℚ) (image_id : String) : Option Nat × FAISSStore :=
  match ensure_loaded disk s with
  | (false, s1) => (none, s1)
  | (true, s1) =>
      match s1.image_id_to_image_vector.lookup image_id with
      | some vid => (some vid, s1)
      | none =>
          if vector.length = s1.dimension then
            let vid := s1.image_index.length
            (some vid, { s1 with
              image_index := s1.image_index ++ [vector],
              image_id_to_image_id := s1.image_id_to_image_id ++ [(vid, image_id)],
              image_id_to_image_vector :=
                s1.image_id_to_image_vector ++ [(image_id, vid)] })
          else (none, s1)

/-- Inner product of two vectors (`IndexFlatIP` similarity). -/
def dot (a b : List ℚ) : ℚ :=
  (a.zip b).foldl (fun acc p => acc + p.1 * p.2) 0

/-- Descending insertion by key, stable for equal keys. -/
def insertDesc {α : Type} (key : α → ℚ) (x : α) : List α → List α
  | [] => [x]
  | y :: ys => if key x < key y then y :: insertDesc key x ys else x :: y :: ys

/-- Stable descending sort by key (models Python's stable
`sort(key=..., reverse=True)` and the ordering of exact faiss search). -/
def sortDesc {α : Type} (key : α → ℚ) (l : List α) : List α :=
  l.foldr (insertDesc key) []

/-- `search_text`: empty index gives `[]`; otherwise exact inner-product
top-`min k ntotal` results sorted by score descending. -/
def search_text (disk : DiskState) (s : FAISSStore)
    (query_vector : List ℚ) (k : Nat) : List SearchResult × FAISSStore :=
  match ensure_loaded disk s with
  | (false, s1) => ([], s1)
  | (true, s1) =>
      if s1.text_index.length = 0 then ([], s1)
      else
        let k1 := min k s1.text_index.length
        let scored := (List.range s1.text_index.length).map
          (fun i => SearchResult.mk i (dot query_vector (s1.text_index.getD i [])))
        ((sortDesc SearchResult.score scored).take k1, s1)

/-- `search_image`: the image-index twin of `search_text`. -/
def search_image (disk : DiskState) (s : FAISSStore)
    (query_vector : List ℚ) (k : Nat) : List SearchResult × FAISSStore :=
  match ensure_loaded disk s with
  | (false, s1) => ([], s1)
  | (true, s1) =>
      if s1.image_index.length = 0 then ([], s1)
      else
        let k1 := min k s1.image_index.length
        let scored := (List.range s1.image_index.length).map
          (fun i => SearchResult.mk i (dot query_vector (s1.image_index.getD i [])))
        ((sortDesc SearchResult.score scored).take k1, s1)

/-- `get_image_id_from_text_vector`: forward mapping lookup. -/
def get_image_id_from_text_vector (s : FAISSStore) (vector_id : Nat) :
    Option String :=
  s.text_id_to_image_id.lookup vector_id

/-- `get_image_id_from_image_vector`: forward mapping lookup. -/
def get_image_id_from_image_vector (s : FAISSStore) (vector_id : Nat) :
    Option String :=
  s.image_id_to_image_id.lookup vector_id

/-- `scores[image_id]["text"] = sc` preceded by default insertion of
`{"text": 0.0, "image": 0.0}` when the key is new. -/
def updTextScore : List (String × ℚ × ℚ) → String → ℚ → List (String × ℚ × ℚ)
  | [], image_id, sc => [(image_id, sc, 0)]
  | (k, t, i) :: rest, image_id, sc =>
      if k = image_id then (k, sc, i) :: rest
      else (k, t, i) :: updTextScore rest image_id sc

/-- `scores[image_id]["image"] = sc` with the same default insertion. -/
def updImageScore : List (String × ℚ × ℚ) → String → ℚ → List (String × ℚ × ℚ)
  | [], image_id, sc => [(image_id, 0, sc)]
  | (k, t, i) :: rest, image_id, sc =>
      if k = image_id then (k, t, sc) :: rest
      else (k, t, i) :: updImageScore rest image_id sc

/-- Score fusion of `hybrid_search`: weighted sum when both sides are
positive, otherwise the raw single side. -/
def fuse_score (text_weight image_weight text_score image_score : ℚ) : ℚ :=
  if 0 < text_score ∧ 0 < image_score then
    text_weight * text_score + image_weight * image_score
  else if 0 < text_score then text_score
  else image_score

/-- `hybrid_search`: over-fetch `3k` from both indices, resolve ids
through the mappings (a `None` or empty id is skipped by `if image_id:`),
accumulate per-identity score pairs in dict insertion order, fuse, sort
descending and truncate to `k`. -/
def hybrid_search (disk : DiskState) (s : FAISSStore) (query_vector : List ℚ)
    (k : Nat) (text_weight image_weight : ℚ) :
    List (String × ℚ) × FAISSStore :=
  let search_k := k * 3
  let tr := search_text disk s query_vector search_k
  let ir := search_image disk tr.2 query_vector search_k
  let s2 := ir.2
  let afterText := tr.1.foldl (fun acc r =>
    match get_image_id_from_text_vector s2 r.vector_id with
    | some image_id =>
        if image_id = "" then acc else updTextScore acc image_id r.score
    | none => acc) []
  let afterImage := ir.1.foldl (fun acc r =>
    match get_image_id_from_image_vector s2 r.vector_id with
    | some image_id =>
        if image_id = "" then acc else updImageScore acc image_id r.score
    | none => acc) afterText
  let combined := afterImage.map (fun e =>
    (e.1, fuse_score text_weight image_weight e.2.1 e.2.2))
  ((sortDesc Prod.snd combined).take k, s2)

/-- `get_text_vector_count`: 0 before loading, else `ntotal`. -/
def get_text_vector_count (s : FAISSStore) : Nat :=
  if s.is_loaded then s.text_index.length else 0

/-- `get_image_vector_count`: 0 before loading, else `ntotal`. -/
def get_image_vector_count (s : FAISSStore) : Nat :=
  if s.is_loaded then s.image_index.length else 0

/-- `has_vectors_for_image`: membership in the two reverse mappings. -/
def has_vectors_for_image (s : FAISSStore) (image_id : String) : Bool × Bool :=
  ((s.image_id_to_text_vector.lookup image_id).isSome,
   (s.image_id_to_image_vector.lookup image_id).isSome)

/-- The store as `create_indices` first builds it. -/
def emptyStore (dimension : Nat) : FAISSStore :=
  ⟨dimension, true, [], [], [], [], [], []⟩

/-- One `addVector` call of either kind, for stating invariants over
arbitrary call sequences. -/
inductive VecOp where
  | addText (v : List ℚ) (image_id : String)
  | addImage (v : List ℚ) (image_id : String)

/-- Apply one `addVector` call, keeping only the store. -/
def applyOp (disk : DiskState) (s : FAISSStore) : VecOp → FAISSStore
  | .addText v image_id => (add_text_vector disk s v image_id).2
  | .addImage v image_id => (add_image_vector disk s v image_id).2

/-- Apply a sequence of `addVector` calls. -/
def applyOps (disk : DiskState) (ops : List VecOp) (s : FAISSStore) :
    FAISSStore :=
  ops.foldl (applyOp disk) s

/-- The §3 vector-index invariant: per kind, assigned ids are exactly
`0, …, ntotal-1` in order, the forward mapping has exactly `ntotal`
entries, and the reverse mapping has no duplicate identity.  The loaded
flag rides along so the invariant is inductive. -/
def storeInv (s : FAISSStore) : Prop :=
  s.is_loaded = true ∧
  s.text_id_to_image_id.map Prod.fst = List.range s.text_index.length ∧
  s.image_id_to_image_id.map Prod.fst = List.range s.image_index.length ∧
  s.text_id_to_image_id.length = s.text_index.length ∧
  s.image_id_to_image_id.length = s.image_index.length ∧
  (s.image_id_to_text_vector.map Prod.fst).Nodup ∧
  (s.image_id_to_image_vector.map Prod.fst).Nodup

/-- A disk state with nothing persisted (fresh deployment). -/
def emptyDisk : DiskState := ⟨.missing, .missing, .missing⟩

/-- The spec §8 fusion example as a loaded store: item `A` has a text
vector scoring `0.90` and an image vector scoring `0.50` against the
probe `[1, 0]`; item `B` has only a text vector scoring `0.95`. -/
def exampleStore : FAISSStore :=
  ⟨2, true,
   [[9/10, 0], [19/20, 0]], [[1/2, 0]],
   [(0, "A"), (1, "B")], [(0, "A")],
   [("A", 0), ("B", 1)], [("A", 0)]⟩

end Faiss

namespace Embedder

/-! ### `normalize_vector` (`app/services/embedder.py`)

`np.linalg.norm` of a vector is the square root of its sum of squares;
the components are embedded as `ℝ` so the norm is `Real.sqrt`.  The
source returns the input unchanged when the norm equals zero and divides
every component by the norm otherwise. -/

/-- `np.linalg.norm(vector)`: the L2 norm. -/
noncomputable def normVal (vector : List ℝ) : ℝ :=
  Real.sqrt ((vector.map (fun x => x ^ 2)).sum)

/-- `normalize_vector`: guarded componentwise division by the norm. -/
noncomputable def normalize_vector (vector : List ℝ) : List ℝ :=
  if normVal vector = 0 then vector
  else vector.map (fun x => x / normVal vector)

end Embedder

open Hashing Dedup Faiss Embedder

/-! ## Theorems -/

theorem wordToHex_length (w : Nat) : (wordToHex w).length = 8 := by
  simp [wordToHex]

theorem hexChar_mem (n : Nat) : hexChar n ∈ hexCharList := by
  have h16 : n % 16 < 16 := Nat.mod_lt _ (by norm_num)
  have hall : ∀ m, m < 16 → hexCharList.getD m '0' ∈ hexCharList := by decide
  exact hall _ h16

theorem wordToHex_mem (w : Nat) (c : Char) (h : c ∈ wordToHex w) :
    c ∈ hexCharList := by
  simp only [wordToHex, List.mem_map] at h
  obtain ⟨j, _, rfl⟩ := h
  exact hexChar_mem _

theorem sha256hex_length (msg : List Nat) : (sha256hex msg).length = 64 := by
  simp [sha256hex, String.length, wordToHex_length]

theorem sha256hex_chars (msg : List Nat) :
    ∀ c ∈ (sha256hex msg).data, c ∈ hexCharList := by
  intro c hc
  simp only [sha256hex, List.mem_append] at hc
  rcases hc with ((((((h | h) | h) | h) | h) | h) | h) | h <;>
    exact wordToHex_mem _ _ h

/-- Known-answer test anchoring the embedded SHA-256 against FIPS 180-4:
the digest of `"abc"` (bytes 97, 98, 99). -/
theorem sha256hex_test_vector :
    sha256hex [97, 98, 99] =
      "ba7816bf8f01cfea414140de5dae2223b00361a396177a9cb410ff61f20015ad" := by
  decide

/-- C6: `compute_image_id` fails exactly on empty input (with the
empty-input error), returns the SHA-256 digest rendered as a 64-character
lowercase-hex string on every non-empty input, and is deterministic. -/
theorem c6_identify_contract :
    compute_image_id [] = .error .emptyInput ∧
    (∀ b : List Nat, (∃ e, compute_image_id b = .error e) ↔ b = []) ∧
    (∀ b : List Nat, b ≠ [] →
      compute_image_id b = .ok (sha256hex b) ∧
      (sha256hex b).length = 64 ∧
      ∀ c ∈ (sha256hex b).data, c ∈ hexCharList) ∧
    (∀ b1 b2 : List Nat, b1 = b2 →
      compute_image_id b1 = compute_image_id b2) := by
  refine ⟨rfl, fun b => ?_, fun b hb => ?_, fun b1 b2 h => by rw [h]⟩
  · constructor
    · rintro ⟨e, he⟩
      by_contra hne
      simp [compute_image_id, hne] at he
    · rintro rfl
      exact ⟨.emptyInput, rfl⟩
  · exact ⟨by simp [compute_image_id, hb], sha256hex_length b, sha256hex_chars b⟩

/-- C6 witness at the one-byte input `[97]`. -/
theorem c6_identify_contract_witness :
    compute_image_id [97] = .ok (sha256hex [97]) ∧
    (sha256hex [97]).length = 64 := by
  have h := c6_identify_contract.2.2.1 [97] (by decide)
  exact ⟨h.1, h.2.1⟩

/-- C5: on a byte string whose id is unknown, `check_and_register`
returns `(id, False)` and inserts the id; the repeated call returns
`(id, True)` without mutating the registry; the known count grows by
exactly one across the two calls. -/
theorem c5_dedup_idempotent :
    ∀ (known : Finset String) (b : List Nat), b ≠ [] →
      sha256hex b ∉ known →
      check_and_register known b =
        .ok (sha256hex b, false, insert (sha256hex b) known) ∧
      check_and_register (insert (sha256hex b) known) b =
        .ok (sha256hex b, true, insert (sha256hex b) known) ∧
      get_known_count (insert (sha256hex b) known) =
        get_known_count known + 1 := by
  intro known b hb hmem
  refine ⟨?_, ?_, ?_⟩
  · simp [check_and_register, get_image_id, compute_image_id, hb,
      is_duplicate, hmem]
  · simp [check_and_register, get_image_id, compute_image_id, hb,
      is_duplicate, Finset.mem_insert_self]
  · simp [get_known_count, Finset.card_insert_of_not_mem hmem]

/-- C5 witness: the two calls on bytes `"abc"` from an empty registry. -/
theorem c5_dedup_idempotent_witness :
    check_and_register ∅ [97, 98, 99] =
      .ok (sha256hex [97, 98, 99], false, insert (sha256hex [97, 98, 99]) ∅) ∧
    check_and_register (insert (sha256hex [97, 98, 99]) ∅) [97, 98, 99] =
      .ok (sha256hex [97, 98, 99], true, insert (sha256hex [97, 98, 99]) ∅) ∧
    get_known_count (insert (sha256hex [97, 98, 99]) ∅) =
      get_known_count ∅ + 1 :=
  c5_dedup_idempotent ∅ [97, 98, 99] (by decide) (Finset.not_mem_empty _)

theorem not_pySpace_of_hexDigit (c : Char) (h : isHexDigit c = true) :
    isPySpace c = false := by
  cases hsp : isPySpace c with
  | false => rfl
  | true =>
    exfalso
    simp only [isPySpace, Bool.or_eq_true, beq_iff_eq] at hsp
    rcases hsp with ((((rfl | rfl) | rfl) | rfl) | rfl) | rfl <;>
      simp [isHexDigit] at h

theorem dropWhile_pySpace_of_hex (l : List Char)
    (h : ∀ c ∈ l, isHexDigit c = true) : l.dropWhile isPySpace = l := by
  cases l with
  | nil => rfl
  | cons c rest =>
    rw [List.dropWhile_cons]
    simp [not_pySpace_of_hexDigit c (h c (List.mem_cons_self c rest))]

theorem foldl_hexStep_afterDigit (l : List Char)
    (h : ∀ c ∈ l, isHexDigit c = true) :
    l.foldl hexStep .afterDigit = .afterDigit := by
  induction l with
  | nil => rfl
  | cons c rest ih =>
    rw [List.foldl_cons]
    have hc : hexStep .afterDigit c = .afterDigit := by
      simp [hexStep, h c (List.mem_cons_self c rest)]
    rw [hc]
    exact ih (fun x hx => h x (List.mem_cons_of_mem c hx))

theorem hexNum_of_all_digits (allowUnd : Bool) (c : Char) (rest : List Char)
    (h : ∀ x ∈ c :: rest, isHexDigit x = true) :
    hexNum allowUnd (c :: rest) = true := by
  have hc : hexStep (.begin allowUnd) c = .afterDigit := by
    simp [hexStep, h c (List.mem_cons_self c rest)]
  rw [hexNum, List.foldl_cons, hc,
    foldl_hexStep_afterDigit rest (fun x hx => h x (List.mem_cons_of_mem c hx))]
  rfl

/-- C8 counterexample: a 64-character string whose first character is the
sign `+` (not a hexadecimal digit) is accepted by `is_valid_image_id`,
while the spec shape predicate rejects it. -/
theorem c8_valid_id_counterexample :
    is_valid_image_id (String.mk ('+' :: List.replicate 63 'f')) = true ∧
    isHex64Spec (String.mk ('+' :: List.replicate 63 'f')) = false := by
  decide

/-- C8 amended: `is_valid_image_id` accepts every 64-character string of
hexadecimal digits, and accepts only 64-character strings; but its
acceptance is Python `int(s, 16)` parsing, so some 64-character strings
with non-hex-digit characters (signs, whitespace, underscores, an `0x`
prefix) are also accepted. -/
theorem c8_valid_id_amended :
    ∀ s : String,
      (s.data.length = 64 → (∀ c ∈ s.data, isHexDigit c = true) →
        is_valid_image_id s = true) ∧
      (is_valid_image_id s = true → s.data.length = 64) := by
  intro s
  constructor
  · intro hlen hhex
    have hstr : ((s.data.dropWhile isPySpace).reverse.dropWhile
        isPySpace).reverse = s.data := by
      rw [dropWhile_pySpace_of_hex s.data hhex,
        dropWhile_pySpace_of_hex s.data.reverse
          (fun c hc => hhex c (List.mem_reverse.mp hc)),
        List.reverse_reverse]
    have hlen64 : s.length = 64 := hlen
    rw [is_valid_image_id, if_pos hlen64, pyIntHexOk, hstr]
    rcases hd : s.data with _ | ⟨c0, rest⟩
    · rw [hd] at hlen; simp at hlen
    rcases rest with _ | ⟨c1, rest2⟩
    · rw [hd] at hlen; simp at hlen
    have hc0 : isHexDigit c0 = true := by
      rw [hd] at hhex; exact hhex c0 (by simp)
    have hc1 : isHexDigit c1 = true := by
      rw [hd] at hhex; exact hhex c1 (by simp)
    have hsign : (c0 = '+' || c0 = '-') = false := by
      rcases eq_or_ne c0 '+' with rfl | h1
      · simp [isHexDigit] at hc0
      rcases eq_or_ne c0 '-' with rfl | h2
      · simp [isHexDigit] at hc0
      simp [h1, h2]
    have hpre : (c0 = '0' && (c1 = 'x' || c1 = 'X')) = false := by
      rcases eq_or_ne c1 'x' with rfl | h1
      · simp [isHexDigit] at hc1
      rcases eq_or_ne c1 'X' with rfl | h2
      · simp [isHexDigit] at hc1
      simp [h1, h2]
    rw [pySigned, hsign]
    simp only [Bool.false_eq_true, if_false]
    rw [pyHexBody, hpre]
    simp only [Bool.false_eq_true, if_false]
    exact hexNum_of_all_digits false c0 (c1 :: rest2)
      (by rw [hd] at hhex; exact hhex)
  · intro hv
    rw [is_valid_image_id] at hv
    by_cases h64 : s.length = 64
    · exact h64
    · rw [if_neg h64] at hv; exact absurd hv (by simp)

/-- C8 amended witness: the all-`f` 64-character id is accepted. -/
theorem c8_valid_id_amended_witness :
    is_valid_image_id (String.mk (List.replicate 64 'f')) = true :=
  (c8_valid_id_amended (String.mk (List.replicate 64 'f'))).1
    (by decide) (by decide)

theorem lookup_append_of_none {β : Type} (l l' : List (String × β)) (k : String)
    (h : l.lookup k = none) : (l ++ l').lookup k = l'.lookup k := by
  induction l with
  | nil => rfl
  | cons p rest ih =>
    obtain ⟨k0, v0⟩ := p
    rw [List.cons_append, List.lookup_cons]
    rw [List.lookup_cons] at h
    rcases hk : (k == k0) with _ | _
    · rw [hk] at h; exact ih h
    · rw [hk] at h; exact absurd h (by simp)

theorem not_mem_keys_of_lookup_none {β : Type} (l : List (String × β))
    (k : String) (h : l.lookup k = none) : k ∉ l.map Prod.fst := by
  induction l with
  | nil => simp
  | cons p rest ih =>
    obtain ⟨k0, v0⟩ := p
    rw [List.lookup_cons] at h
    rcases hk : (k == k0) with _ | _
    · rw [hk] at h
      simp only [List.map_cons, List.mem_cons]
      rintro (rfl | hmem)
      · exact absurd (by simp : (k == k)= true) (by rw [hk]; simp)
      · exact ih h hmem
    · rw [hk] at h; exact absurd h (by simp)

/-- C7 counterexample: a persisted state whose text index holds two
vectors while the text mapping holds one entry loads with success
(`True`) and the mismatch intact — no consistency failure is surfaced. -/
theorem c7_load_mismatch_counterexample :
    (load_indices ⟨.ok [[1], [1]], .ok [], .ok ⟨[(0, "A")], []⟩⟩
        (emptyStore 768)).1 = true ∧
    (load_indices ⟨.ok [[1], [1]], .ok [], .ok ⟨[(0, "A")], []⟩⟩
        (emptyStore 768)).2.text_index.length = 2 ∧
    (load_indices ⟨.ok [[1], [1]], .ok [], .ok ⟨[(0, "A")], []⟩⟩
        (emptyStore 768)).2.text_id_to_image_id.length = 1 := by
  decide

/-- C7 amended: `load_indices` never reports failure — readable persisted
state is installed as-is with no index/mapping count comparison (a count
mismatch loads silently), and an unreadable file is silently repaired by
falling back to fresh empty indices. -/
theorem c7_load_amended :
    ∀ (disk : DiskState) (s : FAISSStore),
      (load_indices disk s).1 = true ∧
      (∀ ti ii m, load_indices ⟨.ok ti, .ok ii, .ok m⟩ s =
        (true, { s with
                 text_index := ti,
                 image_index := ii,
                 text_id_to_image_id := m.text_to_image,
                 image_id_to_image_id := m.image_to_image,
                 image_id_to_text_vector := buildReverse m.text_to_image,
                 image_id_to_image_vector := buildReverse m.image_to_image,
                 is_loaded := true })) ∧
      (load_indices ⟨.corrupt, disk.image_file, disk.mapping_file⟩ s).2 =
        (create_indices s).2 := by
  intro disk s
  refine ⟨?_, fun ti ii m => rfl, ?_⟩
  · obtain ⟨tf, imf, mf⟩ := disk
    rcases tf <;> rcases imf <;> rcases mf <;> rfl
  · obtain ⟨tf, imf, mf⟩ := disk
    rcases imf <;> rcases mf <;> rfl

/-- C4: adding a vector whose length differs from the configured
dimension fails (the caught dimension assertion yields `None`) and leaves
the store unchanged, for both kinds, whenever the identity has no vector
of that kind yet. -/
theorem c4_dimension_mismatch :
    ∀ (disk : DiskState) (s : FAISSStore) (v : List ℚ) (image_id : String),
      s.is_loaded = true → v.length ≠ s.dimension →
      (s.image_id_to_text_vector.lookup image_id = none →
        add_text_vector disk s v image_id = (none, s)) ∧
      (s.image_id_to_image_vector.lookup image_id = none →
        add_image_vector disk s v image_id = (none, s)) := by
  intro disk s v image_id hl hdim
  constructor
  · intro hlk
    simp [add_text_vector, ensure_loaded, hl, hlk, hdim]
  · intro hlk
    simp [add_image_vector, ensure_loaded, hl, hlk, hdim]

/-- C4 witness: a 1-component vector against a dimension-3 store. -/
theorem c4_dimension_mismatch_witness :
    add_text_vector emptyDisk (emptyStore 3) [1] "x" = (none, emptyStore 3) ∧
    add_image_vector emptyDisk (emptyStore 3) [1] "x" = (none, emptyStore 3) := by
  have h := c4_dimension_mismatch emptyDisk (emptyStore 3) [1] "x" rfl (by decide)
  exact ⟨h.1 rfl, h.2 rfl⟩

/-- C2: `addVector` is idempotent per kind and identity — a known
identity returns its existing id with the store untouched; a fresh
identity added twice returns the same id both times, and the text vector
count grows by exactly one across the two calls. -/
theorem c2_add_idempotent :
    ∀ (disk : DiskState) (s : FAISSStore) (v : List ℚ) (image_id : String),
      s.is_loaded = true →
      (∀ vid, s.image_id_to_text_vector.lookup image_id = some vid →
        add_text_vector disk s v image_id = (some vid, s)) ∧
      (∀ vid, s.image_id_to_image_vector.lookup image_id = some vid →
        add_image_vector disk s v image_id = (some vid, s)) ∧
      (s.image_id_to_text_vector.lookup image_id = none →
        v.length = s.dimension →
        (add_text_vector disk s v image_id).1 = some s.text_index.length ∧
        add_text_vector disk (add_text_vector disk s v image_id).2 v image_id =
          (some s.text_index.length, (add_text_vector disk s v image_id).2) ∧
        get_text_vector_count (add_text_vector disk s v image_id).2 =
          get_text_vector_count s + 1) := by
  intro disk s v image_id hl
  refine ⟨?_, ?_, ?_⟩
  · intro vid hlk
    simp [add_text_vector, ensure_loaded, hl, hlk]
  · intro vid hlk
    simp [add_image_vector, ensure_loaded, hl, hlk]
  · intro hlk hdim
    have h1 : add_text_vector disk s v image_id =
        (some s.text_index.length, { s with
          text_index := s.text_index ++ [v],
          text_id_to_image_id := s.text_id_to_image_id ++ [(s.text_index.length, image_id)],
          image_id_to_text_vector := s.image_id_to_text_vector ++ [(image_id, s.text_index.length)] }) := by
      simp [add_text_vector, ensure_loaded, hl, hlk, hdim]
    have h2 : (s.image_id_to_text_vector ++
        [(image_id, s.text_index.length)]).lookup image_id =
        some s.text_index.length := by
      rw [lookup_append_of_none _ _ _ hlk, List.lookup_cons]
      simp
    refine ⟨by rw [h1], ?_, ?_⟩
    · rw [h1]
      simp only [add_text_vector, ensure_loaded, hl, if_true]
      rw [h2]
    · rw [h1]
      simp [get_text_vector_count, hl]

/-- C2 witness: a fresh identity added twice to a dimension-1 store. -/
theorem c2_add_idempotent_witness :
    (add_text_vector emptyDisk (emptyStore 1) [5] "x").1 = some 0 ∧
    add_text_vector emptyDisk
        (add_text_vector emptyDisk (emptyStore 1) [5] "x").2 [5] "x" =
      (some 0, (add_text_vector emptyDisk (emptyStore 1) [5] "x").2) ∧
    get_text_vector_count (add_text_vector emptyDisk (emptyStore 1) [5] "x").2 =
      get_text_vector_count (emptyStore 1) + 1 :=
  (c2_add_idempotent emptyDisk (emptyStore 1) [5] "x" rfl).2.2 rfl rfl

theorem addText_of_some (disk : DiskState) (s : FAISSStore) (v : List ℚ)
    (image_id : String) (vid : Nat) (hl : s.is_loaded = true)
    (hlk : s.image_id_to_text_vector.lookup image_id = some vid) :
    add_text_vector disk s v image_id = (some vid, s) := by
  simp [add_text_vector, ensure_loaded, hl, hlk]

theorem addText_of_none_good (disk : DiskState) (s : FAISSStore) (v : List ℚ)
    (image_id : String) (hl : s.is_loaded = true)
    (hlk : s.image_id_to_text_vector.lookup image_id = none)
    (hdim : v.length = s.dimension) :
    add_text_vector disk s v image_id =
      (some s.text_index.length, { s with
        text_index := s.text_index ++ [v],
        text_id_to_image_id := s.text_id_to_image_id ++ [(s.text_index.length, image_id)],
        image_id_to_text_vector := s.image_id_to_text_vector ++ [(image_id, s.text_index.length)] }) := by
  simp [add_text_vector, ensure_loaded, hl, hlk, hdim]

theorem addText_of_none_bad (disk : DiskState) (s : FAISSStore) (v : List ℚ)
    (image_id : String) (hl : s.is_loaded = true)
    (hlk : s.image_id_to_text_vector.lookup image_id = none)
    (hdim : v.length ≠ s.dimension) :
    add_text_vector disk s v image_id = (none, s) := by
  simp [add_text_vector, ensure_loaded, hl, hlk, hdim]

theorem addImage_of_some (disk : DiskState) (s : FAISSStore) (v : List ℚ)
    (image_id : String) (vid : Nat) (hl : s.is_loaded = true)
    (hlk : s.image_id_to_image_vector.lookup image_id = some vid) :
    add_image_vector disk s v image_id = (some vid, s) := by
  simp [add_image_vector, ensure_loaded, hl, hlk]

theorem addImage_of_none_good (disk : DiskState) (s : FAISSStore) (v : List ℚ)
    (image_id : String) (hl : s.is_loaded = true)
    (hlk : s.image_id_to_image_vector.lookup image_id = none)
    (hdim : v.length = s.dimension) :
    add_image_vector disk s v image_id =
      (some s.image_index.length, { s with
        image_index := s.image_index ++ [v],
        image_id_to_image_id := s.image_id_to_image_id ++ [(s.image_index.length, image_id)],
        image_id_to_image_vector := s.image_id_to_image_vector ++ [(image_id, s.image_index.length)] }) := by
  simp [add_image_vector, ensure_loaded, hl, hlk, hdim]

theorem addImage_of_none_bad (disk : DiskState) (s : FAISSStore) (v : List ℚ)
    (image_id : String) (hl : s.is_loaded = true)
    (hlk : s.image_id_to_image_vector.lookup image_id = none)
    (hdim : v.length ≠ s.dimension) :
    add_image_vector disk s v image_id = (none, s) := by
  simp [add_image_vector, ensure_loaded, hl, hlk, hdim]

theorem keys_append_nodup {β : Type} (l : List (String × β)) (image_id : String)
    (b : β) (hn : (l.map Prod.fst).Nodup)
    (hlk : l.lookup image_id = none) :
    ((l ++ [(image_id, b)]).map Prod.fst).Nodup := by
  rw [List.map_append, List.nodup_append]
  refine ⟨hn, by simp, ?_⟩
  intro a ha hb
  simp only [List.map_cons, List.map_nil, List.mem_singleton] at hb
  subst hb
  exact not_mem_keys_of_lookup_none l a hlk ha

theorem storeInv_empty (d : Nat) : storeInv (emptyStore d) := by
  simp [storeInv, emptyStore]

theorem storeInv_applyOp (disk : DiskState) (s : FAISSStore) (op : VecOp)
    (h : storeInv s) : storeInv (applyOp disk s op) := by
  obtain ⟨hl, ht, hi, htl, hil, hnt, hni⟩ := h
  cases op with
  | addText v image_id =>
    rcases hlk : s.image_id_to_text_vector.lookup image_id with _ | vid
    · by_cases hdim : v.length = s.dimension
      · rw [applyOp, addText_of_none_good disk s v image_id hl hlk hdim]
        refine ⟨hl, ?_, hi, ?_, hil, ?_, hni⟩
        · rw [List.map_append, ht, List.length_append]
          simp [List.range_succ]
        · simp [htl]
        · exact keys_append_nodup _ image_id _ hnt hlk
      · rw [applyOp, addText_of_none_bad disk s v image_id hl hlk hdim]
        exact ⟨hl, ht, hi, htl, hil, hnt, hni⟩
    · rw [applyOp, addText_of_some disk s v image_id vid hl hlk]
      exact ⟨hl, ht, hi, htl, hil, hnt, hni⟩
  | addImage v image_id =>
    rcases hlk : s.image_id_to_image_vector.lookup image_id with _ | vid
    · by_cases hdim : v.length = s.dimension
      · rw [applyOp, addImage_of_none_good disk s v image_id hl hlk hdim]
        refine ⟨hl, ht, ?_, htl, ?_, hnt, ?_⟩
        · rw [List.map_append, hi, List.length_append]
          simp [List.range_succ]
        · simp [hil]
        · exact keys_append_nodup _ image_id _ hni hlk
      · rw [applyOp, addImage_of_none_bad disk s v image_id hl hlk hdim]
        exact ⟨hl, ht, hi, htl, hil, hnt, hni⟩
    · rw [applyOp, addImage_of_some disk s v image_id vid hl hlk]
      exact ⟨hl, ht, hi, htl, hil, hnt, hni⟩

/-- C3: after any sequence of `addVector` calls on initially empty
indices, each kind's assigned vector ids are exactly `0, …, M-1` for its
count `M`, each forward mapping has exactly as many entries as its index
has vectors, and each identity holds at most one vector id per kind. -/
theorem c3_vector_id_density :
    ∀ (disk : DiskState) (ops : List VecOp) (d : Nat),
      storeInv (applyOps disk ops (emptyStore d)) := by
  intro disk ops d
  have hgen : ∀ (l : List VecOp) (s : FAISSStore),
      storeInv s → storeInv (applyOps disk l s) := by
    intro l
    induction l with
    | nil => intro s hs; exact hs
    | cons op rest ih =>
        intro s hs
        rw [applyOps, List.foldl_cons]
        exact ih _ (storeInv_applyOp disk s op hs)
  exact hgen ops _ (storeInv_empty d)

theorem insertDesc_mem {α : Type} (key : α → ℚ) (x : α) (l : List α) (a : α)
    (h : a ∈ insertDesc key x l) : a = x ∨ a ∈ l := by
  induction l with
  | nil => simpa [insertDesc] using h
  | cons y ys ih =>
    rw [insertDesc] at h
    by_cases hc : key x < key y
    · rw [if_pos hc] at h
      rcases List.mem_cons.mp h with rfl | h2
      · exact Or.inr (List.mem_cons_self _ _)
      · rcases ih h2 with rfl | h3
        · exact Or.inl rfl
        · exact Or.inr (List.mem_cons_of_mem _ h3)
    · rw [if_neg hc] at h
      rcases List.mem_cons.mp h with rfl | h2
      · exact Or.inl rfl
      · exact Or.inr h2

theorem insertDesc_sorted {α : Type} (key : α → ℚ) (x : α) (l : List α)
    (h : l.Sorted (fun a b => key b ≤ key a)) :
    (insertDesc key x l).Sorted (fun a b => key b ≤ key a) := by
  induction l with
  | nil => simp [insertDesc]
  | cons y ys ih =>
    rw [insertDesc]
    rcases List.sorted_cons.mp h with ⟨hy, hys⟩
    by_cases hc : key x < key y
    · rw [if_pos hc]
      refine List.sorted_cons.mpr ⟨?_, ih hys⟩
      intro b hb
      rcases insertDesc_mem key x ys b hb with rfl | h2
      · exact le_of_lt hc
      · exact hy b h2
    · rw [if_neg hc]
      refine List.sorted_cons.mpr ⟨?_, h⟩
      intro b hb
      rcases List.mem_cons.mp hb with rfl | h2
      · exact le_of_not_lt hc
      · exact le_trans (hy b h2) (le_of_not_lt hc)

theorem sortDesc_sorted {α : Type} (key : α → ℚ) (l : List α) :
    (sortDesc key l).Sorted (fun a b => key b ≤ key a) := by
  induction l with
  | nil => simp [sortDesc]
  | cons x xs ih => exact insertDesc_sorted key x (sortDesc key xs) ih

theorem hybrid_search_fst (disk : DiskState) (s : FAISSStore)
    (query_vector : List ℚ) (k : Nat) (text_weight image_weight : ℚ) :
    ∃ cl, (hybrid_search disk s query_vector k text_weight image_weight).1 =
      (sortDesc Prod.snd cl).take k :=
  ⟨_, rfl⟩

/-- C1: `hybrid_search` fuses with `textWeight*textScore +
imageWeight*imageScore` when both sides are positive and with the raw
one-sided score otherwise, returns results sorted descending by fused
score truncated to `k`, and on the two-item example store ranks
`B (0.95)` above `A (0.78)`. -/
theorem c1_hybrid_fusion :
    (∀ tw iw t i : ℚ, 0 < t → 0 < i →
      fuse_score tw iw t i = tw * t + iw * i) ∧
    (∀ tw iw t : ℚ, 0 < t → fuse_score tw iw t 0 = t) ∧
    (∀ tw iw i : ℚ, fuse_score tw iw 0 i = i) ∧
    (∀ (disk : DiskState) (s : FAISSStore) (q : List ℚ) (k : Nat)
        (tw iw : ℚ),
      ((hybrid_search disk s q k tw iw).1).Sorted (fun a b => b.2 ≤ a.2) ∧
      ((hybrid_search disk s q k tw iw).1).length ≤ k) ∧
    (hybrid_search emptyDisk exampleStore [1, 0] 10 (7/10) (3/10)).1 =
      [("B", 19/20), ("A", 39/50)] := by
  refine ⟨?_, ?_, ?_, ?_, ?_⟩
  · intro tw iw t i ht hi
    simp [fuse_score, ht, hi]
  · intro tw iw t ht
    simp [fuse_score, ht]
  · intro tw iw i
    simp [fuse_score]
  · intro disk s q k tw iw
    obtain ⟨cl, hcl⟩ := hybrid_search_fst disk s q k tw iw
    rw [hcl]
    constructor
    · exact List.Pairwise.sublist (List.take_sublist k _)
        (sortDesc_sorted Prod.snd cl)
    · rw [List.length_take]
      exact min_le_left _ _
  · have h1 : ("A" : String) ≠ "" := by decide
    have h2 : ("B" : String) ≠ "" := by decide
    have h3 : ("B" : String) ≠ "A" := by decide
    have h4 : ("A" : String) ≠ "B" := by decide
    norm_num [h1, h2, h3, h4, hybrid_search, search_text, search_image,
      ensure_loaded, exampleStore, emptyDisk, dot, sortDesc, insertDesc,
      updTextScore, updImageScore, fuse_score, get_image_id_from_text_vector,
      get_image_id_from_image_vector, List.lookup, List.range_succ,
      List.range_zero]

/-- C1 witness: the fusion rule at the example scores, `0.7*0.9 +
0.3*0.5 = 0.78`. -/
theorem c1_hybrid_fusion_witness :
    fuse_score (7/10) (3/10) (9/10) (1/2) = (39/50 : ℚ) := by
  have h := c1_hybrid_fusion.1 (7/10) (3/10) (9/10) (1/2)
    (by norm_num) (by norm_num)
  rw [h]
  norm_num

/-- C10: `normalize_vector` is total with a guarded division — a vector
of zero L2 norm is returned unchanged (so it is not unit norm), and the
output has unit L2 norm exactly when the input norm is nonzero. -/
theorem c10_normalize_guard :
    ∀ v : List ℝ,
      (normVal v = 0 → normalize_vector v = v) ∧
      (normVal (normalize_vector v) = 1 ↔ normVal v ≠ 0) := by
  intro v
  have hpart1 : normVal v = 0 → normalize_vector v = v := by
    intro h
    rw [normalize_vector, if_pos h]
  refine ⟨hpart1, ?_⟩
  by_cases h : normVal v = 0
  · rw [hpart1 h, h]
    norm_num
  · rw [normalize_vector, if_neg h]
    have hS : 0 ≤ (v.map fun x => x ^ 2).sum := by
      apply List.sum_nonneg
      intro x hx
      simp only [List.mem_map] at hx
      obtain ⟨y, _, rfl⟩ := hx
      positivity
    have hSpos : 0 < (v.map fun x => x ^ 2).sum := by
      rcases lt_or_eq_of_le hS with h1 | h1
      · exact h1
      · exfalso
        apply h
        rw [normVal, ← h1, Real.sqrt_zero]
    constructor
    · intro _
      exact h
    · intro _
      rw [normVal]
      have hmm : ((v.map fun x => x / normVal v).map fun x => x ^ 2) =
          v.map fun x => x ^ 2 * ((normVal v) ^ 2)⁻¹ := by
        rw [List.map_map]
        congr 1
        funext x
        simp only [Function.comp_apply]
        rw [div_pow, div_eq_mul_inv]
      rw [hmm, List.sum_map_mul_right, normVal, Real.sq_sqrt hS,
        mul_inv_cancel₀ (ne_of_gt hSpos)]
      exact Real.sqrt_one

/-- C10 witness: the all-zeros vector passes through unchanged. -/
theorem c10_normalize_guard_witness :
    normVal [(0 : ℝ), 0] = 0 ∧ normalize_vector [(0 : ℝ), 0] = [0, 0] := by
  have h0 : normVal [(0 : ℝ), 0] = 0 := by
    simp [normVal]
  exact ⟨h0, (c10_normalize_guard [0, 0]).1 h0⟩
